import Mathlib

/-!
Shallow embedding of the Sallen-Key low-pass filter calculator of
`src/SallenKey.ipynb`: the component synthesizer (`n`, `R`, `synthesize`)
and the transfer-function evaluator (`s`, `H`, `M`, `A`), together with
proofs of the specified properties.  Python floats are modelled as real
numbers; the exceptions that Python raises in `/`, `math.sqrt` and
complex division are modelled explicitly with `Except` so that the
error-handling behaviour of the notebook can be stated and settled.
-/

namespace SallenKey

noncomputable section

open scoped Classical

/-- Component values of the synthesized circuit: capacitances `C1`, `C2`
(Farads) and resistances `R1`, `R2` (Ohms), in the notebook's order of
computation. -/
structure ComponentValues where
  C1 : ℝ
  C2 : ℝ
  R1 : ℝ
  R2 : ℝ

/-- Capacitor ratio: the notebook computes `n = (Q*(m+1))**2/m`. -/
def n (Q m : ℝ) : ℝ := (Q * (m + 1)) ^ 2 / m

/-- Base resistance: the notebook computes
`R = 1./(2*math.pi*C*fc*math.sqrt(m*n))`. -/
def R (fc Q C m : ℝ) : ℝ :=
  1 / (2 * Real.pi * C * fc * Real.sqrt (m * n Q m))

/-- Component synthesizer: the notebook sets `C1 = C`, `C2 = n*C`,
`R1 = m*R`, `R2 = R`. -/
def synthesize (fc Q C m : ℝ) : ComponentValues :=
  ⟨C, n Q m * C, m * R fc Q C m, R fc Q C m⟩

/-- Laplace variable: the notebook defines `s = lambda f: 2*math.pi*f*1j`. -/
def s (f : ℝ) : ℂ := 2 * Real.pi * f * Complex.I

/-- Denominator of the transfer function, as written in the notebook:
`s(f)**2*R1*C1*R2*C2 + s(f)*(R1*C1+R2*C1) + 1`. -/
def denom (cv : ComponentValues) (f : ℝ) : ℂ :=
  s f ^ 2 * cv.R1 * cv.C1 * cv.R2 * cv.C2 +
    s f * (cv.R1 * cv.C1 + cv.R2 * cv.C1) + 1

/-- Transfer function: the notebook defines
`H = lambda f: 1/(s(f)**2*R1*C1*R2*C2 + s(f)*(R1*C1+R2*C1) + 1)`. -/
def H (cv : ComponentValues) (f : ℝ) : ℂ := 1 / denom cv f

/-- Magnitude in decibels: the notebook defines
`M = lambda f: 20*math.log10(abs(H(f)))`. -/
def M (cv : ComponentValues) (f : ℝ) : ℝ :=
  20 * Real.logb 10 (Complex.abs (H cv f))

/-- Phase in degrees: the notebook defines
`A = lambda f: 180/math.pi*cmath.phase(H(f))`; `cmath.phase` is the
principal-value argument. -/
def A (cv : ComponentValues) (f : ℝ) : ℝ := 180 / Real.pi * (H cv f).arg

/-- Error type covering the Python exceptions the notebook can raise
(`ZeroDivisionError` from `/`, `ValueError` from `math.sqrt` and
`math.log10`) together with the spec's error taxonomy
(`InvalidParameterError`, `DegenerateResponseError`), so that the spec's
error-handling claims can be stated against the code's behaviour. -/
inductive PyErr where
  | zeroDivisionError
  | valueError
  | invalidParameterError
  | degenerateResponseError
deriving DecidableEq

/-- Python float division: raises `ZeroDivisionError` when the divisor is
zero (floats modelled as reals). -/
def divPy (x y : ℝ) : Except PyErr ℝ :=
  if y = 0 then .error .zeroDivisionError else .ok (x / y)

/-- Python `math.sqrt`: raises `ValueError` on a negative argument. -/
def sqrtPy (x : ℝ) : Except PyErr ℝ :=
  if x < 0 then .error .valueError else .ok (Real.sqrt x)

/-- Exception-aware version of the notebook line `n = (Q*(m+1))**2/m`. -/
def nPy (Q m : ℝ) : Except PyErr ℝ := divPy ((Q * (m + 1)) ^ 2) m

/-- Exception-aware version of the notebook line
`R = 1./(2*math.pi*C*fc*math.sqrt(m*n))`. -/
def RPy (fc Q C m : ℝ) : Except PyErr ℝ :=
  match nPy Q m with
  | .error e => .error e
  | .ok nv =>
    match sqrtPy (m * nv) with
    | .error e => .error e
    | .ok sq => divPy 1 (2 * Real.pi * C * fc * sq)

/-- Exception-aware component synthesizer: the notebook performs its
computations in order with no parameter validation of its own, so the
only possible failures are the exceptions Python itself raises. -/
def synthesizePy (fc Q C m : ℝ) : Except PyErr ComponentValues :=
  match nPy Q m with
  | .error e => .error e
  | .ok nv =>
    match RPy fc Q C m with
    | .error e => .error e
    | .ok Rv => .ok ⟨C, nv * C, m * Rv, Rv⟩

/-- Exception-aware transfer function: Python complex division raises
`ZeroDivisionError` when the denominator is zero. -/
def HPy (cv : ComponentValues) (f : ℝ) : Except PyErr ℂ :=
  if denom cv f = 0 then .error .zeroDivisionError
  else .ok (1 / denom cv f)

/-- Exception-aware magnitude: Python `math.log10` raises `ValueError` at
zero (negative arguments are ruled out by `abs`). -/
def MPy (cv : ComponentValues) (f : ℝ) : Except PyErr ℝ :=
  match HPy cv f with
  | .error e => .error e
  | .ok h =>
    if Complex.abs h = 0 then .error .valueError
    else .ok (20 * Real.logb 10 (Complex.abs h))

/-- Frequency sweep `list(map(M, freqs))`: evaluates the magnitude at each
frequency in order; an uncaught Python exception aborts the whole sweep. -/
def sweepM (cv : ComponentValues) : List ℝ → Except PyErr (List ℝ)
  | [] => .ok []
  | f :: fs =>
    match MPy cv f with
    | .error e => .error e
    | .ok y =>
      match sweepM cv fs with
      | .error e => .error e
      | .ok ys => .ok (y :: ys)

/-- Component values whose transfer-function denominator vanishes at
frequency `1/(2*pi)`.  They are not producible by `synthesize` (whose
outputs are positive) but `H` accepts arbitrary component values. -/
def badCV : ComponentValues := ⟨1, -1, 1, -1⟩

/-- C1: For every input fc > 0, Q > 0, C > 0, m > 0, the component
synthesizer computes exactly `n = (Q*(m+1))^2 / m`,
`R = 1 / (2*pi*C*fc*sqrt(m*n))`, and returns `C1 = C`, `C2 = n*C`,
`R1 = m*R`, `R2 = R` (floats modelled as real numbers). -/
theorem synthesize_eq_spec (fc Q C m : ℝ)
    (hfc : 0 < fc) (hQ : 0 < Q) (hC : 0 < C) (hm : 0 < m) :
    n Q m = (Q * (m + 1)) ^ 2 / m ∧
    R fc Q C m = 1 / (2 * Real.pi * C * fc * Real.sqrt (m * n Q m)) ∧
    synthesize fc Q C m =
      ⟨C, n Q m * C, m * R fc Q C m, R fc Q C m⟩ :=
  ⟨rfl, rfl, rfl⟩

/-- Witness for C1 at the concrete input fc = 1, Q = 1, C = 1, m = 1. -/
theorem synthesize_eq_spec_witness :
    n 1 1 = (1 * (1 + 1)) ^ 2 / 1 ∧
    R 1 1 1 1 = 1 / (2 * Real.pi * 1 * 1 * Real.sqrt (1 * n 1 1)) ∧
    synthesize 1 1 1 1 = ⟨1, n 1 1 * 1, 1 * R 1 1 1 1, R 1 1 1 1⟩ :=
  synthesize_eq_spec 1 1 1 1 (by norm_num) (by norm_num) (by norm_num)
    (by norm_num)

/-- C2: For every real frequency f and component values, the transfer
function evaluator returns
`H(f) = 1 / (s^2*R1*C1*R2*C2 + s*(R1*C1 + R2*C1) + 1)` where
`s = 2*pi*f*i` is pure imaginary. -/
theorem gain_eq_spec (cv : ComponentValues) (f : ℝ) :
    s f = 2 * Real.pi * f * Complex.I ∧
    (s f).re = 0 ∧
    H cv f = 1 / (s f ^ 2 * cv.R1 * cv.C1 * cv.R2 * cv.C2 +
      s f * (cv.R1 * cv.C1 + cv.R2 * cv.C1) + 1) :=
  ⟨rfl, by simp [s], rfl⟩

/-- Helper: the capacitor ratio is positive for positive Q and m. -/
theorem n_pos {Q m : ℝ} (hQ : 0 < Q) (hm : 0 < m) : 0 < n Q m := by
  unfold n
  positivity

/-- Helper: the square root `sqrt(m*n)` is positive for positive Q, m. -/
theorem sqrt_mn_pos {Q m : ℝ} (hQ : 0 < Q) (hm : 0 < m) :
    0 < Real.sqrt (m * n Q m) :=
  Real.sqrt_pos.mpr (mul_pos hm (n_pos hQ hm))

/-- Helper: the base resistance is positive for positive parameters. -/
theorem R_pos {fc Q C m : ℝ} (hfc : 0 < fc) (hQ : 0 < Q) (hC : 0 < C)
    (hm : 0 < m) : 0 < R fc Q C m := by
  unfold R
  have h := sqrt_mn_pos hQ hm
  have : 0 < 2 * Real.pi * C * fc * Real.sqrt (m * n Q m) := by
    have := Real.pi_pos
    positivity
  positivity

/-- Helper: the only exception `divPy` raises is `ZeroDivisionError`. -/
theorem divPy_error {x y : ℝ} {e : PyErr} (h : divPy x y = Except.error e) :
    e = PyErr.zeroDivisionError := by
  unfold divPy at h
  split_ifs at h <;> simp_all

/-- Helper: the only exception `sqrtPy` raises is `ValueError`. -/
theorem sqrtPy_error {x : ℝ} {e : PyErr} (h : sqrtPy x = Except.error e) :
    e = PyErr.valueError := by
  unfold sqrtPy at h
  split_ifs at h <;> simp_all

/-- Helper: `divPy` succeeds when the divisor is nonzero. -/
theorem divPy_ok {x y : ℝ} (hy : y ≠ 0) : divPy x y = Except.ok (x / y) := by
  unfold divPy
  rw [if_neg hy]

/-- Helper: `sqrtPy` succeeds on nonnegative arguments. -/
theorem sqrtPy_ok {x : ℝ} (hx : ¬ x < 0) :
    sqrtPy x = Except.ok (Real.sqrt x) := by
  unfold sqrtPy
  rw [if_neg hx]

/-- Helper: `nPy` succeeds for nonzero m and returns the ratio `n`. -/
theorem nPy_ok {Q m : ℝ} (hm : m ≠ 0) : nPy Q m = Except.ok (n Q m) := by
  unfold nPy n
  exact divPy_ok hm

/-- Helper: `RPy` succeeds and returns `R` when m is nonzero, `m*n` is
nonnegative, and the divisor `2*pi*C*fc*sqrt(m*n)` is nonzero. -/
theorem RPy_ok {fc Q C m : ℝ} (hm : m ≠ 0) (hmn : ¬ m * n Q m < 0)
    (hden : 2 * Real.pi * C * fc * Real.sqrt (m * n Q m) ≠ 0) :
    RPy fc Q C m = Except.ok (R fc Q C m) := by
  unfold RPy R
  rw [nPy_ok hm]
  simp only [sqrtPy_ok hmn, divPy_ok hden]

/-- Helper: the exceptions raised while computing `R` are only
`ZeroDivisionError` and `ValueError`. -/
theorem RPy_error {fc Q C m : ℝ} {e : PyErr}
    (h : RPy fc Q C m = Except.error e) :
    e = PyErr.zeroDivisionError ∨ e = PyErr.valueError := by
  unfold RPy at h
  revert h
  split
  · next e' heq =>
    intro h
    injection h with h
    subst h
    unfold nPy at heq
    exact Or.inl (divPy_error heq)
  · next nv heq =>
    split
    · next e' heq2 =>
      intro h
      injection h with h
      subst h
      exact Or.inr (sqrtPy_error heq2)
    · next sq heq2 =>
      intro h
      exact Or.inl (divPy_error h)

/-- Helper: `synthesizePy` never yields an `InvalidParameterError`:
no branch of the notebook's computation raises one. -/
theorem synthesizePy_not_invalid (fc Q C m : ℝ) :
    synthesizePy fc Q C m ≠ Except.error PyErr.invalidParameterError := by
  unfold synthesizePy
  split
  · next e heq =>
    intro h
    injection h with h
    subst h
    unfold nPy at heq
    exact absurd (divPy_error heq) (by simp)
  · next nv heq =>
    split
    · next e heq2 =>
      intro h
      injection h with h
      subst h
      rcases RPy_error heq2 with h' | h' <;> simp_all
    · next Rv heq2 =>
      simp

/-- C3 counterexample: at the concrete invalid input fc = -1 (with
Q = C = m = 1), the synthesizer does not fail with
`InvalidParameterError`; the computation completes. -/
theorem synthesize_invalid_fc_unreported :
    synthesizePy (-1) 1 1 1 ≠ Except.error PyErr.invalidParameterError :=
  synthesizePy_not_invalid (-1) 1 1 1

/-- C3 (amended): the synthesizer performs no parameter validation and
never reports an `InvalidParameterError`; in particular for negative fc
(with Q, C, m positive) it completes without any error and returns
component values whose resistances are negative. -/
theorem synthesize_no_validation (fc Q C m : ℝ) :
    synthesizePy fc Q C m ≠ Except.error PyErr.invalidParameterError ∧
    (fc < 0 → 0 < Q → 0 < C → 0 < m →
      synthesizePy fc Q C m = Except.ok (synthesize fc Q C m) ∧
      (synthesize fc Q C m).R1 < 0 ∧ (synthesize fc Q C m).R2 < 0) := by
  refine ⟨synthesizePy_not_invalid fc Q C m, fun hfc hQ hC hm => ?_⟩
  have hm0 : m ≠ 0 := ne_of_gt hm
  have hn : 0 < n Q m := n_pos hQ hm
  have hmn : ¬ m * n Q m < 0 := not_lt.mpr (le_of_lt (mul_pos hm hn))
  have hsq : 0 < Real.sqrt (m * n Q m) := sqrt_mn_pos hQ hm
  have hden : 2 * Real.pi * C * fc * Real.sqrt (m * n Q m) < 0 := by
    have h2 : 0 < 2 * Real.pi * C := by
      have := Real.pi_pos
      positivity
    have h3 : 2 * Real.pi * C * fc < 0 := mul_neg_of_pos_of_neg h2 hfc
    exact mul_neg_of_neg_of_pos h3 hsq
  have hden0 : 2 * Real.pi * C * fc * Real.sqrt (m * n Q m) ≠ 0 :=
    ne_of_lt hden
  have hR : R fc Q C m < 0 := by
    unfold R
    exact one_div_neg.mpr hden
  refine ⟨?_, ?_, ?_⟩
  · simp only [synthesizePy, nPy_ok hm0, RPy_ok hm0 hmn hden0, synthesize]
  · exact mul_neg_of_pos_of_neg hm hR
  · exact hR

/-- Witness for C3's amended theorem at fc = -1, Q = C = m = 1. -/
theorem synthesize_no_validation_witness :
    synthesizePy (-1) 1 1 1 = Except.ok (synthesize (-1) 1 1 1) ∧
    (synthesize (-1) 1 1 1).R1 < 0 ∧ (synthesize (-1) 1 1 1).R2 < 0 :=
  (synthesize_no_validation (-1) 1 1 1).2 (by norm_num) (by norm_num)
    (by norm_num) (by norm_num)

/-- C6: For every valid FilterSpec, the component values produced by
`synthesize` are all positive and satisfy the invariants `C2 = n*C1` and
`R1 = m*R2`; when m = 1 additionally `R1 = R2` and `C2 = (2*Q)^2*C1`. -/
theorem synthesize_invariants (fc Q C m : ℝ)
    (hfc : 0 < fc) (hQ : 0 < Q) (hC : 0 < C) (hm : 0 < m) :
    0 < (synthesize fc Q C m).C1 ∧ 0 < (synthesize fc Q C m).C2 ∧
    0 < (synthesize fc Q C m).R1 ∧ 0 < (synthesize fc Q C m).R2 ∧
    (synthesize fc Q C m).C2 = n Q m * (synthesize fc Q C m).C1 ∧
    (synthesize fc Q C m).R1 = m * (synthesize fc Q C m).R2 ∧
    (m = 1 →
      (synthesize fc Q C m).R1 = (synthesize fc Q C m).R2 ∧
      (synthesize fc Q C m).C2 = (2 * Q) ^ 2 * (synthesize fc Q C m).C1) := by
  have hn := n_pos hQ hm
  have hR := R_pos hfc hQ hC hm
  refine ⟨hC, mul_pos hn hC, mul_pos hm hR, hR, rfl, rfl, fun hm1 => ⟨?_, ?_⟩⟩
  · show m * R fc Q C m = R fc Q C m
    rw [hm1, one_mul]
  · show n Q m * C = (2 * Q) ^ 2 * C
    subst hm1
    unfold n
    rw [div_one]
    ring

/-- Witness for C6 at fc = 1, Q = 1, C = 1, m = 1. -/
theorem synthesize_invariants_witness :
    0 < (synthesize 1 1 1 1).C1 ∧ 0 < (synthesize 1 1 1 1).C2 ∧
    0 < (synthesize 1 1 1 1).R1 ∧ 0 < (synthesize 1 1 1 1).R2 ∧
    (synthesize 1 1 1 1).C2 = n 1 1 * (synthesize 1 1 1 1).C1 ∧
    (synthesize 1 1 1 1).R1 = 1 * (synthesize 1 1 1 1).R2 ∧
    ((1 : ℝ) = 1 →
      (synthesize 1 1 1 1).R1 = (synthesize 1 1 1 1).R2 ∧
      (synthesize 1 1 1 1).C2 = (2 * 1) ^ 2 * (synthesize 1 1 1 1).C1) :=
  synthesize_invariants 1 1 1 1 (by norm_num) (by norm_num) (by norm_num)
    (by norm_num)

/-- C7: Scaling law: for every valid input and k > 0, synthesizing at
frequency k*fc scales the resistances by 1/k and leaves the capacitances
unchanged. -/
theorem synthesize_scaling (fc Q C m k : ℝ)
    (hfc : 0 < fc) (hQ : 0 < Q) (hC : 0 < C) (hm : 0 < m) (hk : 0 < k) :
    (synthesize (k * fc) Q C m).R1 = (synthesize fc Q C m).R1 / k ∧
    (synthesize (k * fc) Q C m).R2 = (synthesize fc Q C m).R2 / k ∧
    (synthesize (k * fc) Q C m).C1 = (synthesize fc Q C m).C1 ∧
    (synthesize (k * fc) Q C m).C2 = (synthesize fc Q C m).C2 := by
  have key : R (k * fc) Q C m = R fc Q C m / k := by
    unfold R
    have hs : Real.sqrt (m * n Q m) ≠ 0 := ne_of_gt (sqrt_mn_pos hQ hm)
    have hπ : Real.pi ≠ 0 := Real.pi_ne_zero
    have hC0 : C ≠ 0 := ne_of_gt hC
    have hfc0 : fc ≠ 0 := ne_of_gt hfc
    have hk0 : k ≠ 0 := ne_of_gt hk
    field_simp
    ring
  refine ⟨?_, key, rfl, rfl⟩
  show m * R (k * fc) Q C m = m * R fc Q C m / k
  rw [key]
  ring

/-- Witness for C7 at fc = 1, Q = 1, C = 1, m = 1, k = 2. -/
theorem synthesize_scaling_witness :
    (synthesize (2 * 1) 1 1 1).R1 = (synthesize 1 1 1 1).R1 / 2 ∧
    (synthesize (2 * 1) 1 1 1).R2 = (synthesize 1 1 1 1).R2 / 2 ∧
    (synthesize (2 * 1) 1 1 1).C1 = (synthesize 1 1 1 1).C1 ∧
    (synthesize (2 * 1) 1 1 1).C2 = (synthesize 1 1 1 1).C2 :=
  synthesize_scaling 1 1 1 1 2 (by norm_num) (by norm_num) (by norm_num)
    (by norm_num) (by norm_num)

/-- C9: For every frequency and component values, the phase is
`(180/pi) * arg(H(f))`, a per-point principal value lying in the
half-open interval (-180, 180].  No unwrapping is applied: `A` is a
pointwise function of `f` alone. -/
theorem phase_principal_value (cv : ComponentValues) (f : ℝ) :
    A cv f = 180 / Real.pi * (H cv f).arg ∧
    A cv f ∈ Set.Ioc (-180 : ℝ) 180 := by
  refine ⟨rfl, ?_⟩
  obtain ⟨h1, h2⟩ := Complex.arg_mem_Ioc (H cv f)
  have hπ : 0 < Real.pi := Real.pi_pos
  have hpos : (0 : ℝ) < 180 / Real.pi := by positivity
  rw [Set.mem_Ioc]
  unfold A
  constructor
  · have h3 : 180 / Real.pi * (-Real.pi) < 180 / Real.pi * (H cv f).arg :=
      (mul_lt_mul_left hpos).mpr h1
    have h4 : 180 / Real.pi * (-Real.pi) = -180 := by
      field_simp
    linarith
  · have h3 : 180 / Real.pi * (H cv f).arg ≤ 180 / Real.pi * Real.pi :=
      (mul_le_mul_left hpos).mpr h2
    have h4 : 180 / Real.pi * Real.pi = 180 := by
      field_simp
    linarith

/-- Helper: the imaginary part of the transfer-function denominator. -/
theorem denom_im (cv : ComponentValues) (f : ℝ) :
    (denom cv f).im = 2 * Real.pi * f * (cv.R1 * cv.C1 + cv.R2 * cv.C1) := by
  simp [denom, s, pow_two]

/-- Helper: the denominator at zero frequency is exactly one. -/
theorem denom_zero (cv : ComponentValues) : denom cv 0 = 1 := by
  simp [denom, s]

/-- Helper: for positive component values the denominator never
vanishes. -/
theorem denom_ne_zero (cv : ComponentValues) (f : ℝ)
    (h1 : 0 < cv.R1) (h2 : 0 < cv.R2) (h3 : 0 < cv.C1) (h4 : 0 < cv.C2) :
    denom cv f ≠ 0 := by
  intro h
  by_cases hf : f = 0
  · subst hf
    rw [denom_zero] at h
    exact one_ne_zero h
  · have him := congrArg Complex.im h
    rw [denom_im] at him
    simp only [Complex.zero_im] at him
    have hb : 0 < cv.R1 * cv.C1 + cv.R2 * cv.C1 := by positivity
    have hω : 2 * Real.pi * f ≠ 0 :=
      mul_ne_zero (mul_ne_zero two_ne_zero Real.pi_ne_zero) hf
    exact mul_ne_zero hω (ne_of_gt hb) him

/-- C10: For every real frequency f and strictly positive component
values, the transfer-function denominator is a nonzero complex number:
it equals 1 at f = 0 and has nonzero imaginary part for f ≠ 0; hence
the division computing the gain never divides by zero and the
division-by-zero branch of `HPy` is unreachable. -/
theorem denominator_nonzero_safety (cv : ComponentValues) (f : ℝ)
    (h1 : 0 < cv.R1) (h2 : 0 < cv.R2) (h3 : 0 < cv.C1) (h4 : 0 < cv.C2) :
    (f = 0 → denom cv f = 1) ∧
    (f ≠ 0 → (denom cv f).im ≠ 0) ∧
    denom cv f ≠ 0 ∧
    HPy cv f = Except.ok (H cv f) := by
  have hne := denom_ne_zero cv f h1 h2 h3 h4
  refine ⟨fun hf => by rw [hf, denom_zero], fun hf => ?_, hne, ?_⟩
  · rw [denom_im]
    have hb : 0 < cv.R1 * cv.C1 + cv.R2 * cv.C1 := by positivity
    have hω : 2 * Real.pi * f ≠ 0 :=
      mul_ne_zero (mul_ne_zero two_ne_zero Real.pi_ne_zero) hf
    exact mul_ne_zero hω (ne_of_gt hb)
  · unfold HPy
    rw [if_neg hne]
    rfl

/-- Witness for C10 at unit component values and f = 1. -/
theorem denominator_nonzero_safety_witness :
    ((1 : ℝ) = 0 → denom ⟨1, 1, 1, 1⟩ 1 = 1) ∧
    ((1 : ℝ) ≠ 0 → (denom ⟨1, 1, 1, 1⟩ 1).im ≠ 0) ∧
    denom ⟨1, 1, 1, 1⟩ 1 ≠ 0 ∧
    HPy ⟨1, 1, 1, 1⟩ 1 = Except.ok (H ⟨1, 1, 1, 1⟩ 1) :=
  denominator_nonzero_safety ⟨1, 1, 1, 1⟩ 1 (by norm_num) (by norm_num)
    (by norm_num) (by norm_num)

/-- Helper: the Laplace variable is a continuous function of f. -/
theorem s_continuous : Continuous fun f : ℝ => s f := by
  unfold s
  exact ((continuous_const.mul Complex.continuous_ofReal).mul continuous_const)

/-- Helper: the denominator is a continuous function of f. -/
theorem denom_continuous (cv : ComponentValues) :
    Continuous fun f : ℝ => denom cv f := by
  unfold denom
  have hs := s_continuous
  exact ((((((hs.pow 2).mul continuous_const).mul continuous_const).mul
    continuous_const).mul continuous_const).add
    (hs.mul continuous_const)).add continuous_const

/-- C5: For any valid (positive) component values, the gain at zero
frequency is exactly H(0) = 1, and the magnitude in dB tends to 0 dB
(unity gain) as f tends to 0. -/
theorem dc_gain_unity (cv : ComponentValues)
    (h1 : 0 < cv.R1) (h2 : 0 < cv.R2) (h3 : 0 < cv.C1) (h4 : 0 < cv.C2) :
    H cv 0 = 1 ∧ Filter.Tendsto (M cv) (nhds 0) (nhds 0) := by
  have hH0 : H cv 0 = 1 := by
    unfold H
    rw [denom_zero]
    simp
  refine ⟨hH0, ?_⟩
  have hHcont : ContinuousAt (fun f : ℝ => H cv f) 0 := by
    unfold H
    apply ContinuousAt.div continuousAt_const (denom_continuous cv).continuousAt
    rw [denom_zero]
    exact one_ne_zero
  have hH1 : Filter.Tendsto (fun f : ℝ => H cv f) (nhds 0) (nhds 1) := by
    have h := hHcont.tendsto
    simp only [hH0] at h
    exact h
  have habs1 : Filter.Tendsto (fun f : ℝ => Complex.abs (H cv f)) (nhds 0)
      (nhds 1) := by
    have h := (Complex.continuous_abs.tendsto (1 : ℂ)).comp hH1
    simpa [Function.comp] using h
  have hlog1 : Filter.Tendsto Real.log (nhds (1 : ℝ)) (nhds 0) := by
    have h := (Real.continuousAt_log (one_ne_zero : (1 : ℝ) ≠ 0)).tendsto
    simpa [Real.log_one] using h
  have hlog0 : Filter.Tendsto
      (fun f : ℝ => Real.log (Complex.abs (H cv f))) (nhds 0) (nhds 0) := by
    have h := hlog1.comp habs1
    simpa [Function.comp] using h
  have hfin := (hlog0.div_const (Real.log 10)).const_mul (20 : ℝ)
  simp only [zero_div, mul_zero] at hfin
  have hMeq : M cv =
      fun f => 20 * (Real.log (Complex.abs (H cv f)) / Real.log 10) := by
    funext f
    unfold M Real.logb
    rfl
  rw [hMeq]
  exact hfin

/-- Witness for C5 at unit component values. -/
theorem dc_gain_unity_witness :
    H ⟨1, 1, 1, 1⟩ 0 = 1 ∧
    Filter.Tendsto (M ⟨1, 1, 1, 1⟩) (nhds 0) (nhds 0) :=
  dc_gain_unity ⟨1, 1, 1, 1⟩ (by norm_num) (by norm_num) (by norm_num)
    (by norm_num)

/-- Helper: when `HPy` succeeds, the returned gain has nonzero modulus,
so the `ValueError` branch of `MPy` (a zero argument to `math.log10`)
is unreachable. -/
theorem HPy_ok_abs_ne {cv : ComponentValues} {f : ℝ} {h : ℂ}
    (heq : HPy cv f = Except.ok h) : Complex.abs h ≠ 0 := by
  unfold HPy at heq
  split_ifs at heq with hd
  injection heq with heq
  subst heq
  exact Complex.abs.ne_zero_iff.mpr (one_div_ne_zero hd)

/-- Helper: the only exception `MPy` raises is `ZeroDivisionError`, from
the complex division inside `H`. -/
theorem MPy_error_eq {cv : ComponentValues} {f : ℝ} {e : PyErr}
    (h : MPy cv f = Except.error e) : e = PyErr.zeroDivisionError := by
  unfold MPy at h
  revert h
  split
  · next e' heq =>
    intro h
    injection h with h
    subst h
    unfold HPy at heq
    split_ifs at heq with hd
    injection heq with heq
    exact heq.symm
  · next hv heq =>
    split_ifs with habs
    · intro h
      exact absurd habs (HPy_ok_abs_ne heq)
    · intro h
      cases h

/-- Helper: the magnitude at a zero-denominator frequency is a raised
`ZeroDivisionError`. -/
theorem MPy_zero_denom {cv : ComponentValues} {f : ℝ}
    (hd : denom cv f = 0) :
    MPy cv f = Except.error PyErr.zeroDivisionError := by
  unfold MPy HPy
  rw [if_pos hd]

/-- Helper: a frequency whose magnitude evaluation raises aborts the
whole sweep with that exception, exactly as `list(map(M, freqs))` does. -/
theorem sweepM_aborts {cv : ComponentValues} {f : ℝ} {freqs : List ℝ}
    (hmem : f ∈ freqs)
    (hf : MPy cv f = Except.error PyErr.zeroDivisionError) :
    sweepM cv freqs = Except.error PyErr.zeroDivisionError := by
  induction freqs with
  | nil => cases hmem
  | cons g gs ih =>
    cases hmg : MPy cv g with
    | error e =>
      have he := MPy_error_eq hmg
      subst he
      simp [sweepM, hmg]
    | ok y =>
      have hfg : f ≠ g := by
        rintro rfl
        rw [hf] at hmg
        cases hmg
      have hmem' : f ∈ gs := by
        rcases List.mem_cons.mp hmem with h | h
        · exact absurd h hfg
        · exact h
      simp [sweepM, hmg, ih hmem']

/-- Helper: the denominator of the transfer function vanishes for the
component values `badCV` at the frequency `1/(2*pi)`. -/
theorem denom_badCV_zero : denom badCV (1 / (2 * Real.pi)) = 0 := by
  have hπ : (Real.pi : ℂ) ≠ 0 := Complex.ofReal_ne_zero.mpr Real.pi_ne_zero
  have hs : s (1 / (2 * Real.pi)) = Complex.I := by
    unfold s
    push_cast
    field_simp
  simp only [denom, badCV, hs]
  push_cast
  ring_nf
  simp [Complex.I_sq]

/-- C4 counterexample: at component values with a vanishing denominator
and the concrete frequency `1/(2*pi)`, the magnitude evaluation raises a
`ZeroDivisionError` (not a `DegenerateResponseError`, and no value such
as negative infinity is produced), and a sweep containing that frequency
aborts entirely: the later sample at f = 1 is never produced. -/
theorem magnitude_degenerate_cex :
    MPy badCV (1 / (2 * Real.pi)) =
      Except.error PyErr.zeroDivisionError ∧
    MPy badCV (1 / (2 * Real.pi)) ≠
      Except.error PyErr.degenerateResponseError ∧
    sweepM badCV [1 / (2 * Real.pi), 1] =
      Except.error PyErr.zeroDivisionError := by
  have hM := MPy_zero_denom denom_badCV_zero
  refine ⟨hM, ?_, ?_⟩
  · rw [hM]
    simp
  · exact sweepM_aborts (List.mem_cons_self _ _) hM

/-- C4 (amended): when the transfer-function denominator evaluates to
zero at a requested frequency, the magnitude evaluation raises a
`ZeroDivisionError` from the complex division (never a
`DegenerateResponseError`, and no -infinity value), and the exception
aborts the rest of the sweep: `list(map(M, freqs))` yields no samples at
all. -/
theorem magnitude_zero_denominator (cv : ComponentValues) (f : ℝ)
    (freqs : List ℝ) (hd : denom cv f = 0) (hmem : f ∈ freqs) :
    MPy cv f = Except.error PyErr.zeroDivisionError ∧
    MPy cv f ≠ Except.error PyErr.degenerateResponseError ∧
    sweepM cv freqs = Except.error PyErr.zeroDivisionError := by
  have hM := MPy_zero_denom hd
  refine ⟨hM, ?_, sweepM_aborts hmem hM⟩
  rw [hM]
  simp

/-- Witness for C4's amended theorem at the concrete degenerate input. -/
theorem magnitude_zero_denominator_witness :
    MPy badCV (1 / (2 * Real.pi)) =
      Except.error PyErr.zeroDivisionError ∧
    MPy badCV (1 / (2 * Real.pi)) ≠
      Except.error PyErr.degenerateResponseError ∧
    sweepM badCV [0, 1 / (2 * Real.pi)] =
      Except.error PyErr.zeroDivisionError :=
  magnitude_zero_denominator badCV (1 / (2 * Real.pi))
    [0, 1 / (2 * Real.pi)] denom_badCV_zero (by simp)

/-- Helper: the real part of the transfer-function denominator. -/
theorem denom_re (cv : ComponentValues) (f : ℝ) :
    (denom cv f).re =
      1 - (2 * Real.pi * f) ^ 2 * (cv.R1 * cv.C1 * cv.R2 * cv.C2) := by
  simp [denom, s, pow_two]
  ring

/-- Helper: at Q = 1/sqrt 2 and m = 1 the capacitor ratio is exactly 2. -/
theorem n_butterworth : n (1 / Real.sqrt 2) 1 = 2 := by
  unfold n
  rw [div_one]
  have h2 : Real.sqrt 2 ^ 2 = 2 := Real.sq_sqrt (by norm_num)
  have hs2 : Real.sqrt 2 ≠ 0 := by
    have := Real.sqrt_pos.mpr (by norm_num : (0:ℝ) < 2)
    exact ne_of_gt this
  field_simp
  nlinarith [h2]

/-- Helper: numeric lower bound for the square root of two. -/
theorem sqrt_two_gt : (1.414213 : ℝ) < Real.sqrt 2 := by
  have h : (1.414213 : ℝ) ^ 2 < 2 := by norm_num
  nlinarith [Real.sq_sqrt (by norm_num : (0:ℝ) ≤ 2),
    Real.sqrt_nonneg 2, h]

/-- Helper: numeric upper bound for the square root of two. -/
theorem sqrt_two_lt : Real.sqrt 2 < (1.414214 : ℝ) := by
  have h : (2 : ℝ) < 1.414214 ^ 2 := by norm_num
  nlinarith [Real.sq_sqrt (by norm_num : (0:ℝ) ≤ 2), Real.sqrt_nonneg 2, h]

/-- Helper: closed form of the base resistance in the Butterworth
scenario fc = 10 Hz, Q = 1/sqrt 2, C = 330 nF, m = 1. -/
theorem R_butterworth :
    R 10 (1 / Real.sqrt 2) (330e-9) 1 =
      1 / (2 * Real.pi * (330e-9) * 10 * Real.sqrt 2) := by
  unfold R
  rw [n_butterworth, one_mul]

/-- Helper: numeric bounds on the base resistance in the Butterworth
scenario. -/
theorem R_butterworth_bounds :
    (34102.79 : ℝ) ≤ R 10 (1 / Real.sqrt 2) (330e-9) 1 ∧
    R 10 (1 / Real.sqrt 2) (330e-9) 1 ≤ (34102.99 : ℝ) := by
  rw [R_butterworth]
  have hπlo := Real.pi_gt_d6
  have hπhi := Real.pi_lt_d6
  have hs2lo := sqrt_two_gt
  have hs2hi := sqrt_two_lt
  have hπpos := Real.pi_pos
  have hs2pos : (0:ℝ) < Real.sqrt 2 := by linarith
  set d : ℝ := 2 * Real.pi * (330e-9) * 10 * Real.sqrt 2 with hd
  have hdpos : 0 < d := by
    rw [hd]
    positivity
  have hprod_lo : (3.141592 : ℝ) * 1.414213 < Real.pi * Real.sqrt 2 :=
    mul_lt_mul hπlo (le_of_lt hs2lo) (by norm_num) (le_of_lt hπpos)
  have hprod_hi : Real.pi * Real.sqrt 2 < (3.141593 : ℝ) * 1.414214 :=
    mul_lt_mul hπhi (le_of_lt hs2hi) hs2pos (by norm_num)
  have hd_lo : (2.93230e-5 : ℝ) < d := by
    rw [hd]
    nlinarith [hprod_lo]
  have hd_hi : d < (2.932304e-5 : ℝ) := by
    rw [hd]
    nlinarith [hprod_hi]
  constructor
  · have h1 : 1 / (2.932304e-5 : ℝ) < 1 / d :=
      one_div_lt_one_div_of_lt hdpos hd_hi
    have h2 : (34102.79 : ℝ) < 1 / (2.932304e-5 : ℝ) := by norm_num
    linarith
  · have h1 : 1 / d < 1 / (2.93230e-5 : ℝ) :=
      one_div_lt_one_div_of_lt (by norm_num) hd_lo
    have h2 : 1 / (2.93230e-5 : ℝ) < (34102.99 : ℝ) := by norm_num
    linarith

/-- Helper: product of the base resistance and the fixed capacitance in
the Butterworth scenario. -/
theorem RC_butterworth :
    R 10 (1 / Real.sqrt 2) (330e-9) 1 * (330e-9 : ℝ) =
      1 / (20 * Real.pi * Real.sqrt 2) := by
  rw [R_butterworth]
  have hπ : Real.pi ≠ 0 := Real.pi_ne_zero
  have hs2 : Real.sqrt 2 ≠ 0 := by
    have := Real.sqrt_pos.mpr (by norm_num : (0:ℝ) < 2)
    exact ne_of_gt this
  field_simp
  ring

/-- Helper: the transfer-function denominator of the Butterworth
components evaluated at the cutoff frequency 10 Hz is `sqrt 2 * I`. -/
theorem denom_butterworth :
    denom (synthesize 10 (1 / Real.sqrt 2) (330e-9) 1) 10 =
      (Real.sqrt 2 : ℝ) * Complex.I := by
  have hπ : Real.pi ≠ 0 := Real.pi_ne_zero
  have hs2pos : (0:ℝ) < Real.sqrt 2 := Real.sqrt_pos.mpr (by norm_num)
  have hs2 : Real.sqrt 2 ≠ 0 := ne_of_gt hs2pos
  have h2 : Real.sqrt 2 ^ 2 = 2 := Real.sq_sqrt (by norm_num)
  set R0 : ℝ := R 10 (1 / Real.sqrt 2) (330e-9) 1 with hR0
  have hRC := RC_butterworth
  apply Complex.ext
  · rw [denom_re]
    have hfields :
        (synthesize 10 (1 / Real.sqrt 2) (330e-9) 1).R1 *
          (synthesize 10 (1 / Real.sqrt 2) (330e-9) 1).C1 *
          (synthesize 10 (1 / Real.sqrt 2) (330e-9) 1).R2 *
          (synthesize 10 (1 / Real.sqrt 2) (330e-9) 1).C2 =
          2 * (R0 * (330e-9)) ^ 2 := by
      show 1 * R0 * (330e-9) * R0 * (n (1 / Real.sqrt 2) 1 * (330e-9)) =
        2 * (R0 * (330e-9)) ^ 2
      rw [n_butterworth]
      ring
    rw [hfields, hRC]
    have hr : ((Real.sqrt 2 : ℝ) : ℂ) * Complex.I =
      Complex.mk 0 (Real.sqrt 2) := by
      apply Complex.ext <;> simp
    rw [hr]
    show 1 - (2 * Real.pi * 10) ^ 2 * (2 * (1 / (20 * Real.pi * Real.sqrt 2)) ^ 2) = 0
    field_simp
    nlinarith [h2, Real.pi_pos]
  · rw [denom_im]
    have hfields :
        (synthesize 10 (1 / Real.sqrt 2) (330e-9) 1).R1 *
          (synthesize 10 (1 / Real.sqrt 2) (330e-9) 1).C1 +
          (synthesize 10 (1 / Real.sqrt 2) (330e-9) 1).R2 *
          (synthesize 10 (1 / Real.sqrt 2) (330e-9) 1).C1 =
          2 * (R0 * (330e-9)) := by
      show 1 * R0 * (330e-9) + R0 * (330e-9) = 2 * (R0 * (330e-9))
      ring
    rw [hfields, hRC]
    have hr : (((Real.sqrt 2 : ℝ) : ℂ) * Complex.I).im = Real.sqrt 2 := by
      simp
    rw [hr]
    field_simp
    nlinarith [h2, Real.pi_pos]

/-- Helper: numeric bounds on the base-10 logarithm of two, from the
integer inequalities `10^300 < 2^1000 < 10^302`. -/
theorem logb_two_bounds :
    (0.300 : ℝ) < Real.logb 10 2 ∧ Real.logb 10 2 < (0.302 : ℝ) := by
  have hlog10 : 0 < Real.log 10 := Real.log_pos (by norm_num)
  constructor
  · have hpow : (10 : ℝ) ^ (300 : ℕ) < 2 ^ (1000 : ℕ) := by norm_num
    have h := Real.log_lt_log (by positivity) hpow
    rw [Real.log_pow, Real.log_pow] at h
    push_cast at h
    unfold Real.logb
    rw [lt_div_iff₀ hlog10]
    linarith
  · have hpow : (2 : ℝ) ^ (1000 : ℕ) < 10 ^ (302 : ℕ) := by norm_num
    have h := Real.log_lt_log (by positivity) hpow
    rw [Real.log_pow, Real.log_pow] at h
    push_cast at h
    unfold Real.logb
    rw [div_lt_iff₀ hlog10]
    linarith

/-- Helper: the magnitude of the Butterworth filter at its cutoff
frequency is exactly `-10*log10 2` decibels. -/
theorem M_butterworth :
    M (synthesize 10 (1 / Real.sqrt 2) (330e-9) 1) 10 =
      -10 * Real.logb 10 2 := by
  have hs2pos : (0:ℝ) < Real.sqrt 2 := Real.sqrt_pos.mpr (by norm_num)
  have habs :
      Complex.abs (H (synthesize 10 (1 / Real.sqrt 2) (330e-9) 1) 10) =
        1 / Real.sqrt 2 := by
    unfold H
    rw [denom_butterworth]
    rw [map_div₀]
    simp [Complex.abs_I, Complex.abs_ofReal, abs_of_nonneg (le_of_lt hs2pos)]
  unfold M
  rw [habs]
  have hlogb : Real.logb 10 (1 / Real.sqrt 2) = -(Real.logb 10 2) / 2 := by
    unfold Real.logb
    rw [one_div, Real.log_inv, Real.log_sqrt (by norm_num : (0:ℝ) ≤ 2)]
    ring
  rw [hlogb]
  ring

/-- C8: Concrete scenario: for fc = 10 Hz, Q = 1/sqrt 2, C = 330 nF,
m = 1, the synthesizer yields C1 = 330.00 nF and C2 = 660.00 nF
(tolerance 1e-2 nF) and R1 and R2 within 0.1 Ohm of 34102.89 Ohm, and
with those component values the magnitude at 10 Hz is within 0.01 dB of
-3.01 dB (the half-power point at the cutoff frequency). -/
theorem concrete_scenario :
    |(synthesize 10 (1 / Real.sqrt 2) (330e-9) 1).C1 * 1e9 - 330| ≤ 1e-2 ∧
    |(synthesize 10 (1 / Real.sqrt 2) (330e-9) 1).C2 * 1e9 - 660| ≤ 1e-2 ∧
    |(synthesize 10 (1 / Real.sqrt 2) (330e-9) 1).R1 - 34102.89| ≤ 0.1 ∧
    |(synthesize 10 (1 / Real.sqrt 2) (330e-9) 1).R2 - 34102.89| ≤ 0.1 ∧
    |M (synthesize 10 (1 / Real.sqrt 2) (330e-9) 1) 10 - (-3.01)| ≤ 0.01 := by
  obtain ⟨hRlo, hRhi⟩ := R_butterworth_bounds
  obtain ⟨hLlo, hLhi⟩ := logb_two_bounds
  refine ⟨?_, ?_, ?_, ?_, ?_⟩
  · show |(330e-9 : ℝ) * 1e9 - 330| ≤ 1e-2
    norm_num
  · show |n (1 / Real.sqrt 2) 1 * (330e-9 : ℝ) * 1e9 - 660| ≤ 1e-2
    rw [n_butterworth]
    norm_num
  · show |1 * R 10 (1 / Real.sqrt 2) (330e-9) 1 - 34102.89| ≤ 0.1
    rw [one_mul, abs_le]
    constructor <;> linarith
  · show |R 10 (1 / Real.sqrt 2) (330e-9) 1 - 34102.89| ≤ 0.1
    rw [abs_le]
    constructor <;> linarith
  · rw [M_butterworth, abs_le]
    constructor <;> linarith

end

end SallenKey
